import Mathlib

/-!
Verification development for the SIMD math kernel in
`src/cpp/math/simd_operations.cpp` / `simd_operations.h`.

The C types `Vec2f`, `Vec3f`, `Vec4f`, `Matrix4f`, `Sphere` hold 32-bit
floats; we embed them shallowly as records over an ordered field, using
exact rational arithmetic (`ℚ`) for the purely algebraic operations and
real arithmetic (`ℝ`) where a square root is involved.  Vectorized and
scalar branches of an operation compute the same per-component formula,
which is what we embed, except for the batch operators, whose AVX branch
has a genuinely different iteration structure that we model explicitly.
-/

namespace SimdOps

/-- `Vec2f` (simd_operations.h, lines 32-34): fields `x, y`. -/
structure Vec2 (K : Type) where
  x : K
  y : K
deriving DecidableEq

/-- `Vec3f` (simd_operations.h, lines 28-30): fields `x, y, z`. -/
structure Vec3 (K : Type) where
  x : K
  y : K
  z : K
deriving DecidableEq

/-- `Vec4f` (simd_operations.h, lines 24-26): fields `x, y, z, w`. -/
structure Vec4 (K : Type) where
  x : K
  y : K
  z : K
  w : K
deriving DecidableEq

variable {K : Type} [LinearOrderedField K]

/-- `vec4_add` (simd_operations.cpp, lines 50-62): componentwise sum; the
SSE branch performs the same four additions in one `_mm_add_ps`. -/
def vec4_add (a b : Vec4 K) : Vec4 K :=
  ⟨a.x + b.x, a.y + b.y, a.z + b.z, a.w + b.w⟩

/-- `vec4_sub` (simd_operations.cpp, lines 64-76). -/
def vec4_sub (a b : Vec4 K) : Vec4 K :=
  ⟨a.x - b.x, a.y - b.y, a.z - b.z, a.w - b.w⟩

/-- `vec4_mul` (simd_operations.cpp, lines 78-90). -/
def vec4_mul (a b : Vec4 K) : Vec4 K :=
  ⟨a.x * b.x, a.y * b.y, a.z * b.z, a.w * b.w⟩

/-- `vec4_scale` (simd_operations.cpp, lines 92-104): multiply every
component by `scale`; the SSE branch broadcasts `scale` and multiplies. -/
def vec4_scale (v : Vec4 K) (scale : K) : Vec4 K :=
  ⟨v.x * scale, v.y * scale, v.z * scale, v.w * scale⟩

/-- `vec4_dot` (simd_operations.cpp, lines 106-122): all three branches
(`_mm_dp_ps`, horizontal adds, scalar) compute the same 4-term sum. -/
def vec4_dot (a b : Vec4 K) : K :=
  a.x * b.x + a.y * b.y + a.z * b.z + a.w * b.w

/-- `vec3_add` (simd_operations.cpp, lines 148-150). -/
def vec3_add (a b : Vec3 K) : Vec3 K :=
  ⟨a.x + b.x, a.y + b.y, a.z + b.z⟩

/-- `vec3_sub` (simd_operations.cpp, lines 152-154). -/
def vec3_sub (a b : Vec3 K) : Vec3 K :=
  ⟨a.x - b.x, a.y - b.y, a.z - b.z⟩

/-- `vec3_mul` (simd_operations.cpp, lines 156-158). -/
def vec3_mul (a b : Vec3 K) : Vec3 K :=
  ⟨a.x * b.x, a.y * b.y, a.z * b.z⟩

/-- `vec3_scale` (simd_operations.cpp, lines 160-162). -/
def vec3_scale (v : Vec3 K) (scale : K) : Vec3 K :=
  ⟨v.x * scale, v.y * scale, v.z * scale⟩

/-- `vec3_dot` (simd_operations.cpp, lines 164-166). -/
def vec3_dot (a b : Vec3 K) : K :=
  a.x * b.x + a.y * b.y + a.z * b.z

/-- `vec2_add` (simd_operations.cpp, lines 190-192). -/
def vec2_add (a b : Vec2 K) : Vec2 K :=
  ⟨a.x + b.x, a.y + b.y⟩

/-- `vec2_sub` (simd_operations.cpp, lines 194-196). -/
def vec2_sub (a b : Vec2 K) : Vec2 K :=
  ⟨a.x - b.x, a.y - b.y⟩

/-- `vec2_dot` (simd_operations.cpp, lines 198-200). -/
def vec2_dot (a b : Vec2 K) : K :=
  a.x * b.x + a.y * b.y

/-!
## Batch operator (simd_operations.cpp, lines 386-415)

`vec4_array_add` and `vec4_array_scale` loop over `count` contiguous
`Vec4f` slots.  The scalar branch runs `for (i = 0; i < count; i++)` and
writes slot `i` per iteration.  The `__AVX__` branch runs
`for (i = 0; i < count; i += 2)` and per iteration loads/stores 256 bits,
i.e. the two slots `i` and `i+1`, with no tail handling.  We model memory
as `ℕ → Vec4 ℚ` and record the slot indices each branch writes.
-/

/-- Slot indices written by the scalar branch: `0, 1, ..., count-1`. -/
def scalarWrites (count : ℕ) : List ℕ :=
  List.range count

/-- Iteration start indices of the AVX branch: `i = 0, 2, 4, ...`
while `i < count` (simd_operations.cpp, lines 389 and 405). -/
def avxStarts (count : ℕ) : List ℕ :=
  (List.range count).filter (fun i => i % 2 = 0)

/-- Slot indices written by the AVX branch: each iteration starting at
`i` stores the 256-bit lane pair, i.e. slots `i` and `i+1`. -/
def avxWrites (count : ℕ) : List ℕ :=
  (avxStarts count).flatMap (fun i => [i, i + 1])

/-- Scalar branch of `vec4_array_add` (simd_operations.cpp, lines
395-399): final memory after `result[i] = vec4_add(a + i, b + i)` for
each `i < count`. -/
def vec4_array_add_scalar (a b result : ℕ → Vec4 ℚ) (count : ℕ) : ℕ → Vec4 ℚ :=
  fun j => if j < count then vec4_add (a j) (b j) else result j

/-- AVX branch of `vec4_array_add` (simd_operations.cpp, lines 388-394):
each iteration starting at `i` stores the wide sum into slots `i` and
`i+1`. -/
def vec4_array_add_avx (a b result : ℕ → Vec4 ℚ) (count : ℕ) : ℕ → Vec4 ℚ :=
  (avxStarts count).foldl
    (fun mem i => fun j =>
      if j = i then vec4_add (a i) (b i)
      else if j = i + 1 then vec4_add (a (i + 1)) (b (i + 1))
      else mem j)
    result

/-- Scalar branch of `vec4_array_scale` (simd_operations.cpp, lines
410-414). -/
def vec4_array_scale_scalar (input : ℕ → Vec4 ℚ) (scale : ℚ) (result : ℕ → Vec4 ℚ)
    (count : ℕ) : ℕ → Vec4 ℚ :=
  fun j => if j < count then vec4_scale (input j) scale else result j

/-- AVX branch of `vec4_array_scale` (simd_operations.cpp, lines
403-409). -/
def vec4_array_scale_avx (input : ℕ → Vec4 ℚ) (scale : ℚ) (result : ℕ → Vec4 ℚ)
    (count : ℕ) : ℕ → Vec4 ℚ :=
  (avxStarts count).foldl
    (fun mem i => fun j =>
      if j = i then vec4_scale (input i) scale
      else if j = i + 1 then vec4_scale (input (i + 1)) scale
      else mem j)
    result

/-!
## Matrix kernel (simd_operations.cpp, lines 216-327)

`Matrix4f` is a row-major `float m[4][4]` of four 16-byte rows; we embed
the value as `Fin 4 → Fin 4 → K`.  The two branches of
`matrix4_multiply` differ genuinely, so both are modelled.  The scalar
branch (lines 247-254) computes `result[i][j] = Σ_k a[i][k] * b[k][j]`.
The `__AVX__` branch (lines 225-244) instead issues 256-bit operations
over the 16-byte rows: `_mm256_load_ps(&b->m[k][0])` loads the two rows
`k` and `k+1` (so `col4` at `k = 3` reads 16 bytes past `b`, and the
loads at byte offsets 16 and 48 violate the 32-byte alignment
`_mm256_load_ps` requires), the broadcast/FMA chain forms, in the lower
128-bit lane, the standard row-`i` sums, and in the upper lane the same
sums over rows shifted by one (including the out-of-bounds row 4 of
`b`), and `_mm256_store_ps(&result.m[i][0])` stores both lanes, i.e.
rows `i` and `i+1` of `result` — at `i = 3` writing 16 bytes past
`result`.  We model the AVX buffers as unbounded row arrays
`ℕ → Fin 4 → ℚ`, where row index 4 is outside the `Matrix4f` extent,
and record the row indices the branch stores.
-/

/-- `Matrix4f` (simd_operations.h, lines 36-38), row-major. -/
def Matrix4 (K : Type) : Type :=
  Fin 4 → Fin 4 → K

/-- `matrix4_identity` (simd_operations.cpp, lines 216-220): zero-fill,
then set the four diagonal entries to 1. -/
def matrix4_identity (K : Type) [LinearOrderedField K] : Matrix4 K :=
  fun i j => if i = j then 1 else 0

/-- Scalar branch of `matrix4_multiply` (simd_operations.cpp, lines
247-254): the row-by-column 4-term sum.  The `__AVX__` branch is NOT
value-equivalent to this formula at the memory level; it is modelled
separately by `matrix4_multiply_avx` below. -/
def matrix4_multiply (a b : Matrix4 K) : Matrix4 K :=
  fun i j => a i 0 * b 0 j + a i 1 * b 1 j + a i 2 * b 2 j + a i 3 * b 3 j

/-- Row indices of `result` stored by the `__AVX__` branch of
`matrix4_multiply`: iteration `i` stores the 256-bit pair of rows `i`
and `i+1` (simd_operations.cpp, line 243). -/
def matrix4AvxWrites : List ℕ :=
  (List.range 4).flatMap (fun i => [i, i + 1])

/-- `__AVX__` branch of `matrix4_multiply` (simd_operations.cpp, lines
225-244), at row granularity: buffers are unbounded row arrays; rows 0-3
are the `Matrix4f`, row 4 is the 16 bytes beyond it.  Iteration `i`
stores into row `i` the standard row-column sums (the lower 128-bit
lane) and into row `i+1` the sums over `b`-rows shifted by one — whose
`k = 3` term reads `b`'s out-of-bounds row 4 (the upper lane of the
`col4` load at line 236). -/
def matrix4_multiply_avx (a b result : ℕ → Fin 4 → ℚ) : ℕ → Fin 4 → ℚ :=
  (List.range 4).foldl
    (fun mem i => fun r =>
      if r = i then
        fun j => a i 0 * b 0 j + a i 1 * b 1 j + a i 2 * b 2 j + a i 3 * b 3 j
      else if r = i + 1 then
        fun j => a i 0 * b 1 j + a i 1 * b 2 j + a i 2 * b 3 j + a i 3 * b 4 j
      else mem r)
    result

/-- `Sphere` (simd_operations.h, lines 135-138): `center` and `radius`. -/
structure Sphere (K : Type) where
  center : Vec3 K
  radius : K

/-- `sphere_sphere_intersect` (simd_operations.cpp, lines 431-436):
squared center distance compared against squared radius sum. -/
def sphere_sphere_intersect (a b : Sphere ℚ) : Bool :=
  let diff := vec3_sub a.center b.center
  let dist_sq := vec3_dot diff diff
  let radius_sum := a.radius + b.radius
  decide (dist_sq ≤ radius_sum * radius_sum)

/-!
## Pokemon damage formula (simd_operations.cpp, lines 330-347)

`attack_power`, `defense` and the multipliers are floats, embedded as
`ℚ`; `attacker_level` and `defender_level` are `uint8_t`, embedded as
`ℕ` cast into the formula.  `fmaxf(1.0f, d)` is `max 1 d`.
-/

/-- `pokemon_damage_calculation` (simd_operations.cpp, lines 330-347). -/
def pokemon_damage_calculation (attack_power defense : ℚ)
    (attacker_level _defender_level : ℕ)
    (type_effectiveness critical_multiplier random_factor : ℚ) : ℚ :=
  let level_factor := (2 * (attacker_level : ℚ) + 10) / 250
  let base_damage := level_factor * attack_power / defense + 2
  let final_damage := base_damage * type_effectiveness * critical_multiplier * random_factor
  max 1 final_damage

/-!
## fast_inv_sqrt (simd_operations.cpp, lines 27-34)

The Quake III inverse square root: the float's IEEE-754 bit pattern is
reinterpreted as an unsigned integer, shifted right by one and
subtracted from the magic constant `0x5f3759df`, the result is
reinterpreted back as a float, and two Newton-Raphson iterations
`conv.f *= 1.5f - (x * 0.5f * conv.f * conv.f)` refine it.  We model
the bit pattern of a positive normal float exactly over `ℚ`:
`float32exp` is the unbiased binary exponent, `float32bits` assembles
the biased exponent and the truncated 23-bit mantissa, `float32ofBits`
decodes a (sign-0) bit pattern.  On every positive value that is
exactly representable as a normal binary32 float — in particular the
inputs `1.0f`, `4.0f`, `100.0f` of the accuracy claim — this
round-trips the exact bit pattern of the C union trick.
-/

/-- Fueled base-2 logarithm on `ℕ` (floor of log2; fuel-structural so
that it evaluates by kernel reduction). -/
def log2fuel : ℕ → ℕ → ℕ
  | 0, _ => 0
  | fuel + 1, n => if n < 2 then 0 else log2fuel fuel (n / 2) + 1

/-- Unbiased binary exponent `⌊log2 q⌋` of a positive rational, valid
for every `q > 2^-200` (which covers all positive normal floats). -/
def float32exp (q : ℚ) : ℤ :=
  (log2fuel 400 ⌊q * 2 ^ 200⌋₊ : ℤ) - 200

/-- IEEE-754 binary32 bit pattern (sign bit 0) of a positive normal
value: biased exponent in bits 23-30, truncated mantissa in bits
0-22. -/
def float32bits (q : ℚ) : ℕ :=
  (float32exp q + 127).toNat * 2 ^ 23 +
    (⌊(q / (2 : ℚ) ^ float32exp q - 1) * 2 ^ 23⌋).toNat

/-- Decode a (sign-0, normal) binary32 bit pattern back to its value. -/
def float32ofBits (n : ℕ) : ℚ :=
  (1 + ((n % 2 ^ 23 : ℕ) : ℚ) / 2 ^ 23) *
    (2 : ℚ) ^ (((n / 2 ^ 23 % 2 ^ 8 : ℕ) : ℤ) - 127)

/-- The bit-level initial guess `conv.i = 0x5f3759df - (conv.i >> 1)`
(simd_operations.cpp, line 30); `>> 1` is division by 2. -/
def fast_inv_sqrt_guess (x : ℚ) : ℚ :=
  float32ofBits (0x5f3759df - float32bits x / 2)

/-- One Newton-Raphson iteration on the inverse-square relation:
`conv.f *= 1.5f - (x * 0.5f * conv.f * conv.f)` (lines 31-32). -/
def newton_inv_sqrt_step (x y : ℚ) : ℚ :=
  y * (3 / 2 - x * (1 / 2) * y * y)

/-- `fast_inv_sqrt` (simd_operations.cpp, lines 27-34): the bit-level
guess followed by exactly two Newton-Raphson iterations. -/
def fast_inv_sqrt (x : ℚ) : ℚ :=
  newton_inv_sqrt_step x (newton_inv_sqrt_step x (fast_inv_sqrt_guess x))

/-!
## Square root, length and normalize (real-valued model)

`fast_sqrt` (simd_operations.cpp, lines 13-25): under `__AVX__` — the
configuration this translation unit targets, its other functions use
AVX/FMA intrinsics unconditionally — it executes the hardware
single-instruction square root `_mm_sqrt_ss`, i.e. the exact square root
in this real-valued model of float arithmetic.  (The non-AVX fallback is
a one-iteration Newton refinement of a bit-level guess.)
-/

noncomputable section

/-- `fast_sqrt` (simd_operations.cpp, lines 13-25), `__AVX__` branch. -/
def fast_sqrt (x : ℝ) : ℝ :=
  Real.sqrt x

/-- `vec4_length` (simd_operations.cpp, lines 124-126). -/
def vec4_length (v : Vec4 ℝ) : ℝ :=
  fast_sqrt (vec4_dot v v)

/-- `vec4_normalize` (simd_operations.cpp, lines 128-135). -/
def vec4_normalize (v : Vec4 ℝ) : Vec4 ℝ :=
  if vec4_length v > 1e-6 then vec4_scale v (1 / vec4_length v)
  else ⟨0, 0, 0, 0⟩

/-- `vec3_length` (simd_operations.cpp, lines 168-170). -/
def vec3_length (v : Vec3 ℝ) : ℝ :=
  fast_sqrt (vec3_dot v v)

/-- `vec3_normalize` (simd_operations.cpp, lines 172-179). -/
def vec3_normalize (v : Vec3 ℝ) : Vec3 ℝ :=
  if vec3_length v > 1e-6 then vec3_scale v (1 / vec3_length v)
  else ⟨0, 0, 0⟩

/-- `vec2_length` (simd_operations.cpp, lines 202-204). -/
def vec2_length (v : Vec2 ℝ) : ℝ :=
  fast_sqrt (vec2_dot v v)

/-- `vec2_normalize` (simd_operations.cpp, lines 206-213): the scaled
components are written inline rather than via a scale helper. -/
def vec2_normalize (v : Vec2 ℝ) : Vec2 ℝ :=
  if vec2_length v > 1e-6 then ⟨v.x * (1 / vec2_length v), v.y * (1 / vec2_length v)⟩
  else ⟨0, 0⟩

/-- The reciprocal `1.0f / len` of the normalize functions, instrumented:
`none` marks a division by zero. -/
def float_inv_checked (len : ℝ) : Option ℝ :=
  if len = 0 then none else some (1 / len)

/-- `vec2_normalize` with its division instrumented by
`float_inv_checked`. -/
def vec2_normalize_checked (v : Vec2 ℝ) : Option (Vec2 ℝ) :=
  if vec2_length v > 1e-6 then
    (float_inv_checked (vec2_length v)).map fun inv_len => ⟨v.x * inv_len, v.y * inv_len⟩
  else some ⟨0, 0⟩

/-- `vec3_normalize` with its division instrumented. -/
def vec3_normalize_checked (v : Vec3 ℝ) : Option (Vec3 ℝ) :=
  if vec3_length v > 1e-6 then
    (float_inv_checked (vec3_length v)).map fun inv_len => vec3_scale v inv_len
  else some ⟨0, 0, 0⟩

/-- `vec4_normalize` with its division instrumented. -/
def vec4_normalize_checked (v : Vec4 ℝ) : Option (Vec4 ℝ) :=
  if vec4_length v > 1e-6 then
    (float_inv_checked (vec4_length v)).map fun inv_len => vec4_scale v inv_len
  else some ⟨0, 0, 0, 0⟩

/-!
## fast_sin / fast_cos (simd_operations.cpp, lines 36-47)

`fast_sin` adds the float constant `PI = 3.14159265359f`, takes
`fmodf(·, 2 * PI)`, subtracts `PI` again, and evaluates
`x * (1 - x2 / 6 + x2 * x2 / 120)` with `x2 = x * x`.  C `fmodf(a, b)`
truncates `a / b` toward zero, so its result carries the sign of `a`.
-/

/-- The constant `PI` of `fast_sin` (simd_operations.cpp, line 38). -/
def PI : ℝ :=
  3.14159265359

/-- Truncation toward zero (the rounding used by C `fmodf`). -/
def rtrunc (q : ℝ) : ℤ :=
  if 0 ≤ q then ⌊q⌋ else ⌈q⌉

/-- C `fmodf(a, b)`: `a - b * trunc(a / b)`. -/
def fmodf (a b : ℝ) : ℝ :=
  a - b * (rtrunc (a / b) : ℝ)

/-- The range-reduction step of `fast_sin` (simd_operations.cpp,
line 39): `fmodf(x + PI, 2 * PI) - PI`. -/
def reduce_to_pi (x : ℝ) : ℝ :=
  fmodf (x + PI) (2 * PI) - PI

/-- `fast_sin` (simd_operations.cpp, lines 36-43): the reduction step
followed by the odd polynomial `x * (1 - x²/6 + x⁴/120)`. -/
def fast_sin (x : ℝ) : ℝ :=
  reduce_to_pi x *
    (1 - reduce_to_pi x * reduce_to_pi x / 6 +
      reduce_to_pi x * reduce_to_pi x * (reduce_to_pi x * reduce_to_pi x) / 120)

/-- `fast_cos` (simd_operations.cpp, lines 45-47):
`fast_sin(x + 1.57079632679f)`. -/
def fast_cos (x : ℝ) : ℝ :=
  fast_sin (x + 1.57079632679)

end

set_option maxRecDepth 8000

/-- C1.  The wide (AVX) branch of the batch operators has no tail loop:
for the odd count 5 it performs iterations starting at 0, 2 and 4, and the
iteration starting at 4 also reads and writes slot 5 — one `Vec4f` past
the `count`-element extent — so the branch does not cover exactly the
`count` elements as §4.5 of the spec requires.  Concretely, with 5-element
arrays the final memory at out-of-bounds slot 5 is changed by both
`vec4_array_add` and `vec4_array_scale`. -/
theorem vec4_array_wide_path_overruns :
    avxWrites 5 = [0, 1, 2, 3, 4, 5] ∧
    scalarWrites 5 = [0, 1, 2, 3, 4] ∧
    vec4_array_add_avx (fun _ => ⟨1, 1, 1, 1⟩) (fun _ => ⟨2, 2, 2, 2⟩)
        (fun _ => ⟨0, 0, 0, 0⟩) 5 5 ≠ ⟨0, 0, 0, 0⟩ ∧
    vec4_array_scale_avx (fun _ => ⟨1, 1, 1, 1⟩) 2
        (fun _ => ⟨0, 0, 0, 0⟩) 5 5 ≠ ⟨0, 0, 0, 0⟩ := by
  have hs : avxStarts 5 = [0, 2, 4] := by decide
  refine ⟨by decide, by decide, ?_, ?_⟩
  · norm_num [vec4_array_add_avx, hs, vec4_add]
  · norm_num [vec4_array_scale_avx, hs, vec4_scale]

/-- C6.  The identity matrix has 1 on the diagonal and 0 elsewhere, and
the scalar branch of `matrix4_multiply` satisfies the claimed two-sided
identity law.  The `__AVX__` branch, however, does not realize that
multiply at the memory level: its four iterations store the 256-bit row
pairs `[0,1], [1,2], [2,3], [3,4]` of `result` — the `i = 3` iteration
writing row 4, 16 bytes past the `Matrix4f` — and the row-4 value
written is exactly what was read 16 bytes past `b` (sentinel 9 below),
while the in-bounds rows do end up holding the scalar branch's
row-column sums (each after being first overwritten with a shifted
partial row by the previous iteration). -/
theorem matrix4_multiply_avx_overruns :
    ((∀ i j : Fin 4, matrix4_identity ℚ i j = if i = j then 1 else 0) ∧
      (∀ m : Matrix4 ℚ,
        matrix4_multiply (matrix4_identity ℚ) m = m ∧
        matrix4_multiply m (matrix4_identity ℚ) = m)) ∧
    matrix4AvxWrites = [0, 1, 1, 2, 2, 3, 3, 4] ∧
    (∀ r j : Fin 4,
      matrix4_multiply_avx
          (fun i j => if i = (j : ℕ) then 1 else 0)
          (fun i j => if i < 4 then ((j : ℕ) + 1 : ℚ) else 9)
          (fun _ _ => 0) (r : ℕ) j =
        matrix4_multiply (matrix4_identity ℚ) (fun _ j => ((j : ℕ) + 1 : ℚ)) r j) ∧
    (∀ j : Fin 4,
      matrix4_multiply_avx
          (fun i j => if i = (j : ℕ) then 1 else 0)
          (fun i j => if i < 4 then ((j : ℕ) + 1 : ℚ) else 9)
          (fun _ _ => 0) 4 j = 9) := by
  have hr4 : List.range 4 = [0, 1, 2, 3] := by decide
  refine ⟨⟨fun i j => rfl, fun m => ⟨?_, ?_⟩⟩, by decide, ?_, ?_⟩
  · funext i j
    fin_cases i <;> fin_cases j <;> simp +decide [matrix4_multiply, matrix4_identity]
  · funext i j
    fin_cases i <;> fin_cases j <;> simp +decide [matrix4_multiply, matrix4_identity]
  · intro r j
    simp only [matrix4_multiply_avx, hr4, List.foldl_cons, List.foldl_nil]
    fin_cases r <;> fin_cases j <;>
      norm_num [matrix4_multiply, matrix4_identity] <;>
      simp +decide [Fin.ext_iff]
  · intro j
    simp only [matrix4_multiply_avx, hr4, List.foldl_cons, List.foldl_nil]
    fin_cases j <;> norm_num <;> simp +decide

/-- C7.  `sphere_sphere_intersect a b` is true iff the squared center
distance is at most the squared radius sum; in particular two unit
spheres at center distance 1 intersect and at center distance 3 do not. -/
theorem sphere_sphere_intersect_spec :
    (∀ a b : Sphere ℚ,
      sphere_sphere_intersect a b = true ↔
        vec3_dot (vec3_sub a.center b.center) (vec3_sub a.center b.center) ≤
          (a.radius + b.radius) * (a.radius + b.radius)) ∧
    sphere_sphere_intersect ⟨⟨0, 0, 0⟩, 1⟩ ⟨⟨1, 0, 0⟩, 1⟩ = true ∧
    sphere_sphere_intersect ⟨⟨0, 0, 0⟩, 1⟩ ⟨⟨3, 0, 0⟩, 1⟩ = false := by
  refine ⟨fun a b => ?_, ?_, ?_⟩
  · simp [sphere_sphere_intersect]
  · norm_num [sphere_sphere_intersect, vec3_sub, vec3_dot]
  · norm_num [sphere_sphere_intersect, vec3_sub, vec3_dot]

/-- C8.  The damage result is clamped from below by 1. -/
theorem pokemon_damage_at_least_one
    (attack_power defense : ℚ) (attacker_level defender_level : ℕ)
    (type_effectiveness critical_multiplier random_factor : ℚ) :
    1 ≤ pokemon_damage_calculation attack_power defense attacker_level
        defender_level type_effectiveness critical_multiplier random_factor :=
  le_max_left 1 _

/-- C9.  The damage result does not depend on `defender_level`: the
parameter is never read by the formula. -/
theorem pokemon_damage_ignores_defender_level
    (attack_power defense : ℚ) (attacker_level d1 d2 : ℕ)
    (type_effectiveness critical_multiplier random_factor : ℚ) :
    pokemon_damage_calculation attack_power defense attacker_level d1
        type_effectiveness critical_multiplier random_factor =
      pokemon_damage_calculation attack_power defense attacker_level d2
        type_effectiveness critical_multiplier random_factor :=
  rfl

theorem float32exp_one : float32exp 1 = 0 := by
  rw [float32exp, show (⌊(1 : ℚ) * 2 ^ 200⌋₊ : ℕ) = 2 ^ 200 by norm_num,
    show log2fuel 400 (2 ^ 200) = 200 by decide]
  norm_num

theorem float32bits_one : float32bits 1 = 0x3F800000 := by
  rw [float32bits, float32exp_one]
  norm_num
  omega

theorem guess_one : fast_inv_sqrt_guess 1 = 16210399 / 16777216 := by
  rw [fast_inv_sqrt_guess, float32bits_one, float32ofBits]
  norm_num

theorem inv_sqrt_one_ok : |fast_inv_sqrt 1 - 1| ≤ 2 / 1000 * 1 := by
  rw [fast_inv_sqrt, guess_one, newton_inv_sqrt_step, newton_inv_sqrt_step, abs_le]
  constructor <;> norm_num

theorem float32exp_four : float32exp 4 = 2 := by
  rw [float32exp, show (⌊(4 : ℚ) * 2 ^ 200⌋₊ : ℕ) = 2 ^ 202 by norm_num,
    show log2fuel 400 (2 ^ 202) = 202 by decide]
  norm_num

theorem float32bits_four : float32bits 4 = 0x40800000 := by
  rw [float32bits, float32exp_four]
  norm_num
  omega

theorem guess_four : fast_inv_sqrt_guess 4 = 16210399 / 33554432 := by
  rw [fast_inv_sqrt_guess, float32bits_four, float32ofBits]
  norm_num

theorem inv_sqrt_four_ok : |fast_inv_sqrt 4 - 1 / 2| ≤ 2 / 1000 * (1 / 2) := by
  rw [fast_inv_sqrt, guess_four, newton_inv_sqrt_step, newton_inv_sqrt_step, abs_le]
  constructor <;> norm_num

theorem float32exp_hundred : float32exp 100 = 6 := by
  rw [float32exp, show (⌊(100 : ℚ) * 2 ^ 200⌋₊ : ℕ) = 100 * 2 ^ 200 by norm_num,
    show log2fuel 400 (100 * 2 ^ 200) = 206 by decide]
  norm_num

theorem float32bits_hundred : float32bits 100 = 0x42C80000 := by
  rw [float32bits, float32exp_hundred]
  norm_num
  omega

theorem guess_hundred : fast_inv_sqrt_guess 100 = 13851103 / 134217728 := by
  rw [fast_inv_sqrt_guess, float32bits_hundred, float32ofBits]
  norm_num

theorem inv_sqrt_hundred_ok : |fast_inv_sqrt 100 - 1 / 10| ≤ 2 / 1000 * (1 / 10) := by
  rw [fast_inv_sqrt, guess_hundred, newton_inv_sqrt_step, newton_inv_sqrt_step, abs_le]
  constructor <;> norm_num

/-- C4.  For every positive input, `fast_inv_sqrt` is the bit-level
initial guess — the IEEE-754 bit pattern reinterpreted as an integer,
shifted right by one and subtracted from the magic constant
`0x5f3759df` — followed by exactly two Newton-Raphson iterations on
the inverse-square relation; at the inputs 1.0, 4.0 and 100.0 the
result is within 0.2% relative error of the exact values 1, 1/2 and
1/10. -/
theorem fast_inv_sqrt_spec :
    (∀ x : ℚ, 0 < x →
      fast_inv_sqrt x =
        newton_inv_sqrt_step x (newton_inv_sqrt_step x
          (float32ofBits (0x5f3759df - float32bits x / 2)))) ∧
    |fast_inv_sqrt 1 - 1| ≤ 2 / 1000 * 1 ∧
    |fast_inv_sqrt 4 - 1 / 2| ≤ 2 / 1000 * (1 / 2) ∧
    |fast_inv_sqrt 100 - 1 / 10| ≤ 2 / 1000 * (1 / 10) :=
  ⟨fun _ _ => rfl, inv_sqrt_one_ok, inv_sqrt_four_ok, inv_sqrt_hundred_ok⟩

/-- C4, witness: the structural conjunct applied at the positive input
1. -/
theorem fast_inv_sqrt_spec_witness :
    (0 : ℚ) < 1 ∧
      fast_inv_sqrt 1 =
        newton_inv_sqrt_step 1 (newton_inv_sqrt_step 1
          (float32ofBits (0x5f3759df - float32bits 1 / 2))) :=
  ⟨by norm_num, fast_inv_sqrt_spec.1 1 (by norm_num)⟩

/-- C5.  Each `normalize` scales by the reciprocal length exactly when
the length exceeds `1e-6`, and returns the all-zero vector otherwise. -/
theorem normalize_guard_spec :
    (∀ v : Vec2 ℝ,
      (vec2_length v > 1e-6 →
        vec2_normalize v = ⟨v.x * (1 / vec2_length v), v.y * (1 / vec2_length v)⟩) ∧
      (¬ vec2_length v > 1e-6 → vec2_normalize v = ⟨0, 0⟩)) ∧
    (∀ v : Vec3 ℝ,
      (vec3_length v > 1e-6 → vec3_normalize v = vec3_scale v (1 / vec3_length v)) ∧
      (¬ vec3_length v > 1e-6 → vec3_normalize v = ⟨0, 0, 0⟩)) ∧
    (∀ v : Vec4 ℝ,
      (vec4_length v > 1e-6 → vec4_normalize v = vec4_scale v (1 / vec4_length v)) ∧
      (¬ vec4_length v > 1e-6 → vec4_normalize v = ⟨0, 0, 0, 0⟩)) := by
  refine ⟨fun v => ⟨fun h => ?_, fun h => ?_⟩, fun v => ⟨fun h => ?_, fun h => ?_⟩,
    fun v => ⟨fun h => ?_, fun h => ?_⟩⟩
  · simp only [vec2_normalize, if_pos h]
  · simp only [vec2_normalize, if_neg h]
  · simp only [vec3_normalize, if_pos h]
  · simp only [vec3_normalize, if_neg h]
  · simp only [vec4_normalize, if_pos h]
  · simp only [vec4_normalize, if_neg h]

/-- C10.  The division `1.0f / len` is only reached under the guard
`len > 1e-6`, where the divisor is nonzero, so the instrumented
normalize never signals division by zero and agrees with the plain
embedding on every input. -/
theorem normalize_division_by_zero_unreachable :
    (∀ v : Vec2 ℝ, vec2_normalize_checked v = some (vec2_normalize v)) ∧
    (∀ v : Vec3 ℝ, vec3_normalize_checked v = some (vec3_normalize v)) ∧
    (∀ v : Vec4 ℝ, vec4_normalize_checked v = some (vec4_normalize v)) := by
  have hpos : ∀ L : ℝ, L > 1e-6 → L ≠ 0 := fun L h =>
    ne_of_gt (lt_trans (by norm_num) h)
  refine ⟨fun v => ?_, fun v => ?_, fun v => ?_⟩
  · by_cases h : vec2_length v > 1e-6
    · simp only [vec2_normalize_checked, vec2_normalize, if_pos h,
        float_inv_checked, if_neg (hpos _ h)]
      rfl
    · simp only [vec2_normalize_checked, vec2_normalize, if_neg h]
  · by_cases h : vec3_length v > 1e-6
    · simp only [vec3_normalize_checked, vec3_normalize, if_pos h,
        float_inv_checked, if_neg (hpos _ h)]
      rfl
    · simp only [vec3_normalize_checked, vec3_normalize, if_neg h]
  · by_cases h : vec4_length v > 1e-6
    · simp only [vec4_normalize_checked, vec4_normalize, if_pos h,
        float_inv_checked, if_neg (hpos _ h)]
      rfl
    · simp only [vec4_normalize_checked, vec4_normalize, if_neg h]

/-- C2, counterexample.  The vector `(1e-7, 0)` is nonzero, but its
length `1e-7` fails the `> 1e-6` guard, so `vec2_normalize` returns the
zero vector, whose length 0 is not within `1e-4` of 1. -/
theorem normalize_unit_length_counterexample :
    (Vec2.mk (1e-7 : ℝ) 0 ≠ Vec2.mk 0 0) ∧
    ¬ |vec2_length (vec2_normalize ⟨1e-7, 0⟩) - 1| ≤ 1e-4 := by
  have hlen : vec2_length (⟨1e-7, 0⟩ : Vec2 ℝ) = 1e-7 := by
    simp only [vec2_length, fast_sqrt, vec2_dot]
    rw [show (1e-7 : ℝ) * 1e-7 + 0 * 0 = (1e-7 : ℝ) ^ 2 by norm_num]
    exact Real.sqrt_sq (by norm_num)
  have hnorm : vec2_normalize (⟨1e-7, 0⟩ : Vec2 ℝ) = ⟨0, 0⟩ := by
    simp only [vec2_normalize, hlen]
    rw [if_neg (by norm_num)]
  have hzero : vec2_length (⟨0, 0⟩ : Vec2 ℝ) = 0 := by
    simp only [vec2_length, fast_sqrt, vec2_dot]
    norm_num
  constructor
  · intro hcontra
    have := congrArg Vec2.x hcontra
    norm_num at this
  · rw [hnorm, hzero]
    norm_num

/-- C2, amended.  For every vector whose length passes the `> 1e-6`
normalization guard — rather than every nonzero vector — the length of
the normalized vector is within `1e-4` of 1, for each arity. -/
theorem normalize_unit_length_amended :
    (∀ v : Vec2 ℝ, vec2_length v > 1e-6 →
      |vec2_length (vec2_normalize v) - 1| ≤ 1e-4) ∧
    (∀ v : Vec3 ℝ, vec3_length v > 1e-6 →
      |vec3_length (vec3_normalize v) - 1| ≤ 1e-4) ∧
    (∀ v : Vec4 ℝ, vec4_length v > 1e-6 →
      |vec4_length (vec4_normalize v) - 1| ≤ 1e-4) := by
  refine ⟨fun v h => ?_, fun v h => ?_, fun v h => ?_⟩
  · have hd0 : (0 : ℝ) ≤ vec2_dot v v :=
      add_nonneg (mul_self_nonneg _) (mul_self_nonneg _)
    have hL0 : 0 < vec2_length v := lt_trans (by norm_num) h
    have hsq : vec2_dot v v = vec2_length v ^ 2 :=
      (Real.sq_sqrt hd0).symm
    have hdot1 : vec2_dot (vec2_normalize v) (vec2_normalize v) = 1 := by
      simp only [vec2_normalize, if_pos h]
      simp only [vec2_dot] at hsq ⊢
      field_simp
      linear_combination hsq
    have h1 : vec2_length (vec2_normalize v) = 1 := by
      simp only [vec2_length, fast_sqrt, hdot1, Real.sqrt_one]
    rw [h1]; norm_num
  · have hd0 : (0 : ℝ) ≤ vec3_dot v v :=
      add_nonneg (add_nonneg (mul_self_nonneg _) (mul_self_nonneg _)) (mul_self_nonneg _)
    have hL0 : 0 < vec3_length v := lt_trans (by norm_num) h
    have hsq : vec3_dot v v = vec3_length v ^ 2 :=
      (Real.sq_sqrt hd0).symm
    have hdot1 : vec3_dot (vec3_normalize v) (vec3_normalize v) = 1 := by
      simp only [vec3_normalize, if_pos h, vec3_scale]
      simp only [vec3_dot] at hsq ⊢
      field_simp
      linear_combination hsq
    have h1 : vec3_length (vec3_normalize v) = 1 := by
      simp only [vec3_length, fast_sqrt, hdot1, Real.sqrt_one]
    rw [h1]; norm_num
  · have hd0 : (0 : ℝ) ≤ vec4_dot v v :=
      add_nonneg (add_nonneg (add_nonneg (mul_self_nonneg _) (mul_self_nonneg _))
        (mul_self_nonneg _)) (mul_self_nonneg _)
    have hL0 : 0 < vec4_length v := lt_trans (by norm_num) h
    have hsq : vec4_dot v v = vec4_length v ^ 2 :=
      (Real.sq_sqrt hd0).symm
    have hdot1 : vec4_dot (vec4_normalize v) (vec4_normalize v) = 1 := by
      simp only [vec4_normalize, if_pos h, vec4_scale]
      simp only [vec4_dot] at hsq ⊢
      field_simp
      linear_combination hsq
    have h1 : vec4_length (vec4_normalize v) = 1 := by
      simp only [vec4_length, fast_sqrt, hdot1, Real.sqrt_one]
    rw [h1]; norm_num

/-- Concrete length computations used by the witnesses below. -/
theorem length_345 :
    vec2_length ⟨3, 4⟩ = 5 ∧ vec3_length ⟨0, 3, 4⟩ = 5 ∧
    vec4_length ⟨0, 0, 3, 4⟩ = 5 := by
  refine ⟨?_, ?_, ?_⟩
  · simp only [vec2_length, fast_sqrt, vec2_dot]
    rw [show (3 : ℝ) * 3 + 4 * 4 = (5 : ℝ) ^ 2 by norm_num]
    exact Real.sqrt_sq (by norm_num)
  · simp only [vec3_length, fast_sqrt, vec3_dot]
    rw [show (0 : ℝ) * 0 + 3 * 3 + 4 * 4 = (5 : ℝ) ^ 2 by norm_num]
    exact Real.sqrt_sq (by norm_num)
  · simp only [vec4_length, fast_sqrt, vec4_dot]
    rw [show (0 : ℝ) * 0 + 0 * 0 + 3 * 3 + 4 * 4 = (5 : ℝ) ^ 2 by norm_num]
    exact Real.sqrt_sq (by norm_num)

/-- C2, witness: the amended theorem applied to the concrete vectors
`(3,4)`, `(0,3,4)`, `(0,0,3,4)` of length 5. -/
theorem normalize_unit_length_amended_witness :
    (vec2_length ⟨3, 4⟩ > 1e-6 ∧ |vec2_length (vec2_normalize ⟨3, 4⟩) - 1| ≤ 1e-4) ∧
    (vec3_length ⟨0, 3, 4⟩ > 1e-6 ∧ |vec3_length (vec3_normalize ⟨0, 3, 4⟩) - 1| ≤ 1e-4) ∧
    (vec4_length ⟨0, 0, 3, 4⟩ > 1e-6 ∧ |vec4_length (vec4_normalize ⟨0, 0, 3, 4⟩) - 1| ≤ 1e-4) := by
  obtain ⟨h2, h3, h4⟩ := length_345
  refine ⟨⟨?_, normalize_unit_length_amended.1 _ ?_⟩,
    ⟨?_, normalize_unit_length_amended.2.1 _ ?_⟩,
    ⟨?_, normalize_unit_length_amended.2.2 _ ?_⟩⟩ <;>
    simp only [h2, h3, h4] <;> norm_num

/-- C5, witness: `normalize_guard_spec` applied to the same concrete
vectors, with the guard hypotheses discharged via their length 5. -/
theorem normalize_guard_spec_witness :
    (vec2_length ⟨3, 4⟩ > 1e-6 ∧
      vec2_normalize ⟨3, 4⟩ =
        ⟨3 * (1 / vec2_length ⟨3, 4⟩), 4 * (1 / vec2_length ⟨3, 4⟩)⟩) ∧
    (vec3_length ⟨0, 3, 4⟩ > 1e-6 ∧
      vec3_normalize ⟨0, 3, 4⟩ = vec3_scale ⟨0, 3, 4⟩ (1 / vec3_length ⟨0, 3, 4⟩)) ∧
    (vec4_length ⟨0, 0, 3, 4⟩ > 1e-6 ∧
      vec4_normalize ⟨0, 0, 3, 4⟩ = vec4_scale ⟨0, 0, 3, 4⟩ (1 / vec4_length ⟨0, 0, 3, 4⟩)) := by
  obtain ⟨h2, h3, h4⟩ := length_345
  have g2 : vec2_length (⟨3, 4⟩ : Vec2 ℝ) > 1e-6 := by rw [h2]; norm_num
  have g3 : vec3_length (⟨0, 3, 4⟩ : Vec3 ℝ) > 1e-6 := by rw [h3]; norm_num
  have g4 : vec4_length (⟨0, 0, 3, 4⟩ : Vec4 ℝ) > 1e-6 := by rw [h4]; norm_num
  exact ⟨⟨g2, (normalize_guard_spec.1 _).1 g2⟩,
    ⟨g3, (normalize_guard_spec.2.1 _).1 g3⟩,
    ⟨g4, (normalize_guard_spec.2.2 _).1 g4⟩⟩

theorem PI_pos : (0 : ℝ) < PI := by
  simp only [PI]; norm_num

/-- On `[-PI, ∞)` the argument of `fmodf` is nonnegative, the reduction
is by a floor multiple of `2 * PI`, and the result lands in
`[-PI, PI)`. -/
theorem reduce_to_pi_mem (x : ℝ) (hx : -PI ≤ x) :
    -PI ≤ reduce_to_pi x ∧ reduce_to_pi x < PI := by
  have hb : (0 : ℝ) < 2 * PI := by linarith [PI_pos]
  have hy : 0 ≤ x + PI := by linarith
  unfold reduce_to_pi fmodf
  set q : ℝ := (x + PI) / (2 * PI) with hqdef
  have hq0 : 0 ≤ q := div_nonneg hy (le_of_lt hb)
  have hfl : rtrunc q = ⌊q⌋ := if_pos hq0
  rw [hfl]
  have h1 : (⌊q⌋ : ℝ) ≤ q := Int.floor_le q
  have h2 : q - 1 < (⌊q⌋ : ℝ) := Int.sub_one_lt_floor q
  have hqe : 2 * PI * q = x + PI := by
    rw [hqdef]; field_simp
  have hmul1 : 2 * PI * (⌊q⌋ : ℝ) ≤ 2 * PI * q :=
    mul_le_mul_of_nonneg_left h1 (le_of_lt hb)
  have hmul2 : 2 * PI * (q - 1) < 2 * PI * (⌊q⌋ : ℝ) :=
    mul_lt_mul_of_pos_left h2 hb
  constructor
  · nlinarith [hmul1, hqe]
  · nlinarith [hmul2, hqe]

theorem reduce_to_pi_zero : reduce_to_pi 0 = 0 := by
  have hq : ((0 : ℝ) + PI) / (2 * PI) = 1 / 2 := by
    simp only [PI]; norm_num
  have ht : rtrunc ((1 : ℝ) / 2) = 0 := by
    rw [rtrunc, if_pos (by norm_num)]
    exact Int.floor_eq_zero_iff.mpr (Set.mem_Ico.mpr ⟨by norm_num, by norm_num⟩)
  rw [reduce_to_pi, fmodf, hq, ht]
  push_cast
  ring

theorem reduce_to_pi_pi_half : reduce_to_pi (Real.pi / 2) = Real.pi / 2 := by
  have hb : (0 : ℝ) < 2 * PI := by linarith [PI_pos]
  have hq0 : (0 : ℝ) ≤ (Real.pi / 2 + PI) / (2 * PI) :=
    div_nonneg (by linarith [Real.pi_pos, PI_pos]) (le_of_lt hb)
  have hq1 : (Real.pi / 2 + PI) / (2 * PI) < 1 := by
    rw [div_lt_one hb]
    have : Real.pi < 3.15 := Real.pi_lt_d2
    simp only [PI]
    linarith
  have ht : rtrunc ((Real.pi / 2 + PI) / (2 * PI)) = 0 := by
    rw [rtrunc, if_pos hq0]
    exact Int.floor_eq_zero_iff.mpr (Set.mem_Ico.mpr ⟨hq0, hq1⟩)
  rw [reduce_to_pi, fmodf, ht]
  push_cast
  ring

/-- The polynomial value at `π/2` overshoots 1 by about `4.5e-3`:
it lies strictly between `1 + 1/1000` and `1 + 5/1000`. -/
theorem fast_sin_pi_half_bounds :
    1 + 1 / 1000 < fast_sin (Real.pi / 2) ∧
      fast_sin (Real.pi / 2) < 1 + 5 / 1000 := by
  have hl : (3.141592 : ℝ) < Real.pi := Real.pi_gt_d6
  have hu : Real.pi < 3.141593 := Real.pi_lt_d6
  have h3u : Real.pi ^ 3 < (3.141593 : ℝ) ^ 3 :=
    pow_lt_pow_left₀ hu (le_of_lt Real.pi_pos) (by norm_num)
  have h3l : (3.141592 : ℝ) ^ 3 < Real.pi ^ 3 :=
    pow_lt_pow_left₀ hl (by norm_num) (by norm_num)
  have h5u : Real.pi ^ 5 < (3.141593 : ℝ) ^ 5 :=
    pow_lt_pow_left₀ hu (le_of_lt Real.pi_pos) (by norm_num)
  have h5l : (3.141592 : ℝ) ^ 5 < Real.pi ^ 5 :=
    pow_lt_pow_left₀ hl (by norm_num) (by norm_num)
  rw [fast_sin, reduce_to_pi_pi_half]
  constructor
  · nlinarith [h3u, h5l, hl]
  · nlinarith [h3l, h5u, hu]

/-- C3, counterexample.  (i) For the input `-3·PI/2 < -PI` the modulo
step leaves the value at `-3·PI/2`, outside `[-π, π]`, because C `fmodf`
truncates toward zero and so only reduces into `[-PI, PI)` for inputs
`≥ -PI`.  (ii) `fast_sin(π/2)` misses 1 by more than `1e-3` (the 5th
order Taylor truncation overshoots to ≈ 1.0045). -/
theorem fast_sin_spec_counterexample :
    ¬ (-Real.pi ≤ reduce_to_pi (-(3 * PI / 2))) ∧
      1 / 1000 < |fast_sin (Real.pi / 2) - 1| := by
  constructor
  · have hq : (-(3 * PI / 2) + PI) / (2 * PI) = -(1 / 4 : ℝ) := by
      simp only [PI]; norm_num
    have ht : rtrunc (-(1 / 4 : ℝ)) = 0 := by
      rw [rtrunc, if_neg (by norm_num)]
      exact Int.ceil_eq_zero_iff.mpr (Set.mem_Ioc.mpr ⟨by norm_num, by norm_num⟩)
    have hred : reduce_to_pi (-(3 * PI / 2)) = -(3 * PI / 2) := by
      rw [reduce_to_pi, fmodf, hq, ht]
      push_cast
      ring
    rw [hred, not_le]
    have : Real.pi < 3.15 := Real.pi_lt_d2
    simp only [PI]
    linarith
  · have h := fast_sin_pi_half_bounds.1
    calc (1 : ℝ) / 1000 < fast_sin (Real.pi / 2) - 1 := by linarith
    _ ≤ |fast_sin (Real.pi / 2) - 1| := le_abs_self _

/-- C3, amended.  For inputs `x ≥ -PI` (C `fmodf` truncates toward zero,
so inputs below `-PI` are not wrapped), the modulo step reduces `x` into
`[-PI, PI)`; `fast_sin` then evaluates the truncated Taylor polynomial
`y·(1 - y²/6 + y⁴/120)` of sine at the reduced value; `fast_sin 0 = 0`,
and `fast_sin(π/2)` is within `5e-3` of 1 (but not within `1e-3`). -/
theorem fast_sin_spec_amended :
    (∀ x : ℝ, -PI ≤ x → -PI ≤ reduce_to_pi x ∧ reduce_to_pi x < PI) ∧
    (∀ x : ℝ, fast_sin x =
      reduce_to_pi x *
        (1 - reduce_to_pi x * reduce_to_pi x / 6 +
          reduce_to_pi x * reduce_to_pi x * (reduce_to_pi x * reduce_to_pi x) / 120)) ∧
    fast_sin 0 = 0 ∧
    |fast_sin (Real.pi / 2) - 1| < 5 / 1000 := by
  refine ⟨reduce_to_pi_mem, fun x => rfl, ?_, ?_⟩
  · rw [fast_sin, reduce_to_pi_zero]
    ring
  · obtain ⟨h1, h2⟩ := fast_sin_pi_half_bounds
    rw [abs_lt]
    constructor <;> linarith

/-- C3, witness: the amended theorem applied at `x = 0`, whose reduced
value 0 indeed lies in `[-PI, PI)`. -/
theorem fast_sin_spec_amended_witness :
    -PI ≤ (0 : ℝ) ∧ (-PI ≤ reduce_to_pi 0 ∧ reduce_to_pi 0 < PI) :=
  ⟨by linarith [PI_pos], fast_sin_spec_amended.1 0 (by linarith [PI_pos])⟩

/-- C7, witness: the characterization applied to two further concrete
spheres (radius sum 3, center distance 2). -/
theorem sphere_sphere_intersect_spec_witness :
    sphere_sphere_intersect ⟨⟨0, 0, 0⟩, 2⟩ ⟨⟨2, 0, 0⟩, 1⟩ = true :=
  (sphere_sphere_intersect_spec.1 _ _).mpr (by norm_num [vec3_sub, vec3_dot])

/-- C8, witness: the clamp theorem at a concrete argument tuple. -/
theorem pokemon_damage_at_least_one_witness :
    1 ≤ pokemon_damage_calculation 50 30 25 20 2 1 1 :=
  pokemon_damage_at_least_one 50 30 25 20 2 1 1

/-- C9, witness: two calls differing only in `defender_level`. -/
theorem pokemon_damage_ignores_defender_level_witness :
    pokemon_damage_calculation 50 30 25 1 2 1 1 =
      pokemon_damage_calculation 50 30 25 99 2 1 1 :=
  pokemon_damage_ignores_defender_level 50 30 25 1 99 2 1 1

/-- C10, witness: the instrumented normalize agrees at a concrete
vector. -/
theorem normalize_division_by_zero_unreachable_witness :
    vec2_normalize_checked ⟨3, 4⟩ = some (vec2_normalize ⟨3, 4⟩) :=
  normalize_division_by_zero_unreachable.1 ⟨3, 4⟩

end SimdOps

